import Mathlib

/-!
Verification of the key-lifecycle core of `bot.py` (a single-use license-key
issuing and redemption service backed by one sqlite database).

Python strings are modelled as lists of Unicode code points (`PyStr`); case
mapping and whitespace are handled in the ASCII range, which covers every
string the program itself produces (base64url key tokens, hex digests,
normalized product names).  The sqlite tables are modelled as lists of
records, and each slash-command handler as a pure state transformer
translated line by line from `bot.py`.
-/

/-- Python strings as lists of Unicode code points. -/
abbrev PyStr := List Nat

/-- Code points of a Lean character list, for writing concrete inputs. -/
def pyCp (l : List Char) : PyStr := l.map Char.toNat

/-- Default whitespace recognised by Python `str.strip` (ASCII range). -/
def isPyWS (n : Nat) : Bool := n == 9 || n == 10 || n == 11 || n == 12 || n == 13 || n == 32

/-- `str.strip()`: drop leading and trailing whitespace. -/
def pyStrip (s : PyStr) : PyStr := ((s.dropWhile isPyWS).reverse.dropWhile isPyWS).reverse

/-- `str.upper()` on one code point (ASCII range). -/
def upperCp (n : Nat) : Nat := if 97 ≤ n ∧ n ≤ 122 then n - 32 else n

/-- `str.upper()`. -/
def pyUpper (s : PyStr) : PyStr := s.map upperCp

/-- `str.lower()` on one code point (ASCII range). -/
def lowerCp (n : Nat) : Nat := if 65 ≤ n ∧ n ≤ 90 then n + 32 else n

/-- `str.lower()`. -/
def pyLower (s : PyStr) : PyStr := s.map lowerCp

/-! ### SHA-256 (`hashlib.sha256(s.encode("utf-8")).hexdigest()`, bot.py lines 101-102) -/

/-- Truncation to a 32-bit word. -/
def w32 (n : Nat) : Nat := n % 4294967296

/-- 32-bit right rotation. -/
def rotr32 (s x : Nat) : Nat := w32 ((x >>> s) ||| (x <<< (32 - s)))

/-- SHA-256 `Ch` function. -/
def shaCh (x y z : Nat) : Nat := (x &&& y) ^^^ ((x ^^^ 4294967295) &&& z)

/-- SHA-256 `Maj` function. -/
def shaMaj (x y z : Nat) : Nat := (x &&& y) ^^^ (x &&& z) ^^^ (y &&& z)

/-- SHA-256 big sigma 0. -/
def shaS0 (x : Nat) : Nat := rotr32 2 x ^^^ rotr32 13 x ^^^ rotr32 22 x

/-- SHA-256 big sigma 1. -/
def shaS1 (x : Nat) : Nat := rotr32 6 x ^^^ rotr32 11 x ^^^ rotr32 25 x

/-- SHA-256 small sigma 0. -/
def shaE0 (x : Nat) : Nat := rotr32 7 x ^^^ rotr32 18 x ^^^ (x >>> 3)

/-- SHA-256 small sigma 1. -/
def shaE1 (x : Nat) : Nat := rotr32 17 x ^^^ rotr32 19 x ^^^ (x >>> 10)

/-- SHA-256 round constants. -/
def shaK : List Nat :=
  [1116352408, 1899447441, 3049323471, 3921009573, 961987163, 1508970993,
   2453635748, 2870763221, 3624381080, 310598401, 607225278, 1426881987,
   1925078388, 2162078206, 2614888103, 3248222580, 3835390401, 4022224774,
   264347078, 604807628, 770255983, 1249150122, 1555081692, 1996064986,
   2554220882, 2821834349, 2952996808, 3210313671, 3336571891, 3584528711,
   113926993, 338241895, 666307205, 773529912, 1294757372, 1396182291,
   1695183700, 1986661051, 2177026350, 2456956037, 2730485921, 2820302411,
   3259730800, 3345764771, 3516065817, 3600352804, 4094571909, 275423344,
   430227734, 506948616, 659060556, 883997877, 958139571, 1322822218,
   1537002063, 1747873779, 1955562222, 2024104815, 2227730452, 2361852424,
   2428436474, 2756734187, 3204031479, 3329325298]

/-- SHA-256 initial hash state. -/
def shaH0 : List Nat :=
  [1779033703, 3144134277, 1013904242, 2773480762,
   1359893119, 2600822924, 528734635, 1541459225]

/-- Word read with default 0. -/
def wride (w : List Nat) (i : Nat) : Nat := w.getD i 0

/-- Extend the message schedule, held in reverse (newest word first), by the
given number of words; positions 1, 6, 14, 15 of the reversed list are the
words t-2, t-7, t-15, t-16 of the schedule. -/
def shaExtendRev : Nat → List Nat → List Nat
  | 0, acc => acc
  | Nat.succ n, acc =>
      shaExtendRev n
        (w32 (shaE1 (wride acc 1) + wride acc 6 + shaE0 (wride acc 14) + wride acc 15) :: acc)

/-- Extend the 16-word message block by the given number of schedule words. -/
def shaExtend (n : Nat) (w : List Nat) : List Nat :=
  (shaExtendRev n w.reverse).reverse

/-- One SHA-256 round on the 8-word working state. -/
def shaRound (kw : Nat × Nat) (st8 : List Nat) : List Nat :=
  match st8 with
  | [a, b, c, d, e, f, g, h] =>
      let t1 := w32 (h + shaS1 e + shaCh e f g + kw.1 + kw.2)
      let t2 := w32 (shaS0 a + shaMaj a b c)
      [w32 (t1 + t2), a, b, c, w32 (d + t1), e, f, g]
  | l => l

/-- Compress one 16-word block into the hash state. -/
def shaCompress (hs : List Nat) (block : List Nat) : List Nat :=
  let ws := shaExtend 48 block
  let fin := (shaK.zip ws).foldl (fun s kw => shaRound kw s) hs
  (hs.zip fin).map (fun p => w32 (p.1 + p.2))

/-- Group bytes into big-endian 32-bit words. -/
def bytesToWords : List Nat → List Nat
  | b0 :: b1 :: b2 :: b3 :: rest => (((b0 * 256 + b1) * 256 + b2) * 256 + b3) :: bytesToWords rest
  | _ => []

/-- Fold the given number of 16-word blocks into the hash state. -/
def shaBlocksGo : Nat → List Nat → List Nat → List Nat
  | 0, _, hs => hs
  | Nat.succ n, ws, hs => shaBlocksGo n (ws.drop 16) (shaCompress hs (ws.take 16))

/-- SHA-256 message padding of a byte sequence. -/
def shaPad (msg : List Nat) : List Nat :=
  let len := msg.length
  let zeros := (119 - len % 64) % 64
  let bits := 8 * len
  msg ++ [128] ++ List.replicate zeros 0 ++
    [(bits >>> 56) &&& 255, (bits >>> 48) &&& 255, (bits >>> 40) &&& 255, (bits >>> 32) &&& 255,
     (bits >>> 24) &&& 255, (bits >>> 16) &&& 255, (bits >>> 8) &&& 255, bits &&& 255]

/-- SHA-256 digest (8 words) of a byte sequence. -/
def sha256_words (msg : List Nat) : List Nat :=
  let ws := bytesToWords (shaPad msg)
  shaBlocksGo (ws.length / 16) ws shaH0

/-- Lowercase hex code point of a nibble, as produced by `hexdigest()`. -/
def hexNib (n : Nat) : Nat := if n < 10 then 48 + n else 87 + n

/-- Lowercase hex code points of a 32-bit word. -/
def wordHex (w : Nat) : List Nat :=
  [hexNib ((w >>> 28) &&& 15), hexNib ((w >>> 24) &&& 15), hexNib ((w >>> 20) &&& 15),
   hexNib ((w >>> 16) &&& 15), hexNib ((w >>> 12) &&& 15), hexNib ((w >>> 8) &&& 15),
   hexNib ((w >>> 4) &&& 15), hexNib (w &&& 15)]

/-- UTF-8 bytes of one code point. -/
def utf8Cp (n : Nat) : List Nat :=
  if n < 128 then [n]
  else if n < 2048 then [192 + n / 64, 128 + n % 64]
  else if n < 65536 then [224 + n / 4096, 128 + (n / 64) % 64, 128 + n % 64]
  else [240 + n / 262144, 128 + (n / 4096) % 64, 128 + (n / 64) % 64, 128 + n % 64]

/-- UTF-8 encoding of a string. -/
def utf8Encode (s : PyStr) : List Nat := (s.map utf8Cp).flatten

/-- `sha256_hex` (bot.py lines 101-102): lowercase hex SHA-256 digest of the
UTF-8 bytes of a string. -/
def sha256_hex (s : PyStr) : PyStr := ((sha256_words (utf8Encode s)).map wordHex).flatten

/-! ### Key utilities (bot.py lines 104-119) -/

/-- The canonical form of a plaintext key as computed at redemption and lookup
(bot.py lines 249, 443): `key.strip().upper()`. -/
def canon (s : PyStr) : PyStr := pyUpper (pyStrip s)

/-- `generate_key` (bot.py lines 104-107): uppercase the freshly drawn random
token and pair it with its digest.  The `secrets.token_urlsafe(32)` draw is
I/O, so the raw token is taken as an argument. -/
def generate_key (raw : PyStr) : PyStr × PyStr :=
  let key := pyUpper raw
  (key, sha256_hex key)

/-- `mask_key` (bot.py lines 109-113).  The code point 46 is the full stop in
the literal joining the first and last four characters. -/
def mask_key (key : PyStr) : PyStr :=
  let k := pyUpper (pyStrip key)
  if k.length ≤ 10 then k
  else k.take 4 ++ [46, 46, 46] ++ k.drop (k.length - 4)

/-- Worker for `collapseWS`: the flag records whether the scan is inside a
whitespace run whose dash has already been emitted. -/
def collapseWSGo : Bool → PyStr → PyStr
  | _, [] => []
  | inRun, c :: rest =>
      if isPyWS c then
        if inRun then collapseWSGo true rest
        else 45 :: collapseWSGo true rest
      else c :: collapseWSGo false rest

/-- Replace each maximal whitespace run by a single dash (code point 45), the
`re.sub` on bot.py line 117. -/
def collapseWS (s : PyStr) : PyStr := collapseWSGo false s

/-- Characters kept by the last `re.sub` of `normalize_product_name`
(bot.py line 118): lowercase letters, digits, dash, underscore. -/
def allowedCp (n : Nat) : Bool :=
  (97 ≤ n && n ≤ 122) || (48 ≤ n && n ≤ 57) || n == 45 || n == 95

/-- `normalize_product_name` (bot.py lines 115-119). -/
def normalize_product_name (s : PyStr) : PyStr :=
  (collapseWS (pyLower (pyStrip s))).filter allowedCp

/-! ### Data model: the sqlite tables created by `init_db` (bot.py lines 46-93) -/

/-- A row of the `keys` table. -/
structure KeyRec where
  key_hash : PyStr
  product_name : PyStr
  redeemed : Bool
  created_at : PyStr
deriving DecidableEq, Repr

/-- A row of the `products` table. -/
structure ProductRec where
  name : PyStr
  role_id : Option Nat
  created_at : PyStr
deriving DecidableEq, Repr

/-- A row of the `redemptions` table. -/
structure RedemptionRec where
  key_hash : PyStr
  product_name : PyStr
  user_id : Nat
  guild_id : Nat
  redeemed_at : PyStr
deriving DecidableEq, Repr

/-- A row of the `sellauth_map` table. -/
structure SaRow where
  product_name : PyStr
  sellauth_product_id : PyStr
  sellauth_variant_id : PyStr
deriving DecidableEq, Repr

/-- A row of the `settings` table. -/
structure SettingsRow where
  guild_id : Nat
  log_channel_id : Option Nat
deriving DecidableEq, Repr

/-- The whole database state. -/
structure St where
  products : List ProductRec
  keys : List KeyRec
  redemptions : List RedemptionRec
  settings : List SettingsRow
  sellauth_map : List SaRow
deriving DecidableEq, Repr

/-- The freshly initialised database: all five tables empty. -/
def empty_db : St := ⟨[], [], [], [], []⟩

/-- `get_product` (bot.py lines 145-148): first `products` row with the given
name. -/
def get_product (st : St) (pname : PyStr) : Option ProductRec :=
  st.products.find? (fun p => p.name == pname)

/-! ### `redeem` (bot.py lines 244-297)

The handler opens one connection and, at separate `await` points, first
SELECTs the key row, then (if unused) executes the UPDATE and the INSERT in
one deferred sqlite transaction finished by `db.commit()`.  `redeem_read` is
the SELECT, `redeem_write` the committed write transaction, and
`redeem_after_read` the continuation that chooses the reply from the row the
SELECT returned; `redeem` chains them, which is the uninterleaved execution. -/

/-- Outcome a caller observes from `/redeem`. -/
inductive RedeemOutcome
  | invalidKey
  | alreadyUsed
  | redeemed (product_name : PyStr)
deriving DecidableEq, Repr

/-- The SELECT of bot.py lines 253-257: product name and used flag of the row
with the given hash, if any. -/
def redeem_read (st : St) (h : PyStr) : Option (PyStr × Bool) :=
  (st.keys.find? (fun r => r.key_hash == h)).map (fun r => (r.product_name, r.redeemed))

/-- The UPDATE of bot.py line 267: flip `redeemed` on every row with the given
hash. -/
def mark_redeemed (keys : List KeyRec) (h : PyStr) : List KeyRec :=
  keys.map (fun r => if r.key_hash == h then { r with redeemed := true } else r)

/-- The committed write transaction of bot.py lines 267-272: the used-flag
UPDATE and the `redemptions` INSERT, made visible together by `db.commit()`. -/
def redeem_write (st : St) (h p : PyStr) (uid gid : Nat) (now : PyStr) : St :=
  { st with
      keys := mark_redeemed st.keys h,
      redemptions := st.redemptions ++ [⟨h, p, uid, gid, now⟩] }

/-- The continuation after the SELECT (bot.py lines 258-272): no row means an
invalid key, a used row means already-used, an unused row runs the write
transaction. -/
def redeem_after_read (st : St) (row : Option (PyStr × Bool)) (h : PyStr)
    (uid gid : Nat) (now : PyStr) : St × RedeemOutcome :=
  match row with
  | none => (st, .invalidKey)
  | some (_, true) => (st, .alreadyUsed)
  | some (p, false) => (redeem_write st h p uid gid now, .redeemed p)

/-- `/redeem` run without interleaving (bot.py lines 244-297).  The role grant
and the log message after the commit are external side effects. -/
def redeem (st : St) (key : PyStr) (uid gid : Nat) (now : PyStr) : St × RedeemOutcome :=
  redeem_after_read st (redeem_read st (sha256_hex (canon key)))
    (sha256_hex (canon key)) uid gid now

/-! ### Key generation (bot.py lines 353-384 and 505-546) -/

/-- Result of a key-generation command. -/
inductive GenResult
  | amountOutOfRange
  | productNotFound
  | notLinked
  | conflict
  | ok (ks : List PyStr)
deriving DecidableEq, Repr

/-- Whether a digest already occurs in the table, the condition under which
the `key_hash UNIQUE` constraint makes an INSERT raise `IntegrityError`. -/
def hash_in (tbl : List KeyRec) (h : PyStr) : Bool :=
  tbl.any (fun r => r.key_hash == h)

/-- The insert loop of bot.py lines 369-375 (also 526-532): `n` iterations
drawing raw token `raws i` onwards; a UNIQUE violation aborts the whole
uncommitted transaction, so the result is `none` and no row persists. -/
def genLoop (pname now : PyStr) (raws : Nat → PyStr) :
    Nat → Nat → List KeyRec → Option (List KeyRec × List PyStr)
  | _, 0, tbl => some (tbl, [])
  | i, Nat.succ n, tbl =>
      let kk := generate_key (raws i)
      if hash_in tbl kk.2 then none
      else
        match genLoop pname now raws (i + 1) n (tbl ++ [⟨kk.2, pname, false, now⟩]) with
        | none => none
        | some (tbl2, ks) => some (tbl2, kk.1 :: ks)

/-- `/genkeys` (bot.py lines 353-384): amount check, product existence check,
then the insert loop committed as one transaction. -/
def genkeys (st : St) (product : PyStr) (amount : Int) (raws : Nat → PyStr)
    (now : PyStr) : St × GenResult :=
  if amount < 1 ∨ 50 < amount then (st, .amountOutOfRange)
  else if (get_product st (normalize_product_name product)).isNone then (st, .productNotFound)
  else
    match genLoop (normalize_product_name product) now raws 0 amount.toNat st.keys with
    | none => (st, .conflict)
    | some (tbl2, ks) => ({ st with keys := tbl2 }, .ok ks)

/-- The `sellauth_map` lookup of bot.py lines 514-516, the first database
session of `/sellauth_pushkeys`. -/
def sa_lookup (st : St) (pname : PyStr) : Option (PyStr × PyStr) :=
  (st.sellauth_map.find? (fun r => r.product_name == pname)).map
    (fun r => (r.sellauth_product_id, r.sellauth_variant_id))

/-- The second database session of `/sellauth_pushkeys` (bot.py lines
525-533): the same insert loop as `/genkeys`, committed as one transaction. -/
def pushkeys_insert (st : St) (pname : PyStr) (amount : Int) (raws : Nat → PyStr)
    (now : PyStr) : St × GenResult :=
  match genLoop pname now raws 0 amount.toNat st.keys with
  | none => (st, .conflict)
  | some (tbl2, ks) => ({ st with keys := tbl2 }, .ok ks)

/-- `/sellauth_pushkeys` run without interleaving (bot.py lines 505-546):
amount check, mapping lookup, insert loop.  There is no check against the
`products` table.  The HTTP push to SellAuth happens after the commit and
never rolls the keys back. -/
def sellauth_pushkeys (st : St) (product : PyStr) (amount : Int)
    (raws : Nat → PyStr) (now : PyStr) : St × GenResult :=
  if amount < 1 ∨ 50 < amount then (st, .amountOutOfRange)
  else
    match sa_lookup st (normalize_product_name product) with
    | none => (st, .notLinked)
    | some _ => pushkeys_insert st (normalize_product_name product) amount raws now

/-! ### Product registry and settings (bot.py lines 130-143, 308-332, 482-502) -/

/-- `/product_add` (bot.py lines 308-320): upsert keeping `created_at` on
conflict, as the `ON CONFLICT ... DO UPDATE SET role_id` only touches
`role_id`. -/
def product_add (st : St) (name : PyStr) (role : Option Nat) (now : PyStr) : St :=
  { st with
      products :=
        if st.products.any (fun p => p.name == normalize_product_name name) then
          st.products.map (fun p =>
            if p.name == normalize_product_name name then ⟨p.name, role, p.created_at⟩ else p)
        else st.products ++ [⟨normalize_product_name name, role, now⟩] }

/-- `/product_remove` (bot.py lines 323-332): delete the product row and its
`sellauth_map` row; `keys` and `redemptions` are not touched. -/
def product_remove (st : St) (name : PyStr) : St :=
  { st with
      products := st.products.filter (fun p => !(p.name == normalize_product_name name)),
      sellauth_map :=
        st.sellauth_map.filter (fun r => !(r.product_name == normalize_product_name name)) }

/-- Result of `/sellauth_link`. -/
inductive LinkResult
  | productNotFound
  | linked
deriving DecidableEq, Repr

/-- `/sellauth_link` (bot.py lines 482-502): product existence check, then
upsert of the mapping with stripped ids. -/
def sellauth_link (st : St) (product spid svid : PyStr) : St × LinkResult :=
  if (get_product st (normalize_product_name product)).isNone then (st, .productNotFound)
  else
    ({ st with
        sellauth_map :=
          if st.sellauth_map.any (fun r => r.product_name == normalize_product_name product) then
            st.sellauth_map.map
              (fun r => if r.product_name == normalize_product_name product then
                ⟨normalize_product_name product, pyStrip spid, pyStrip svid⟩ else r)
          else st.sellauth_map ++
            [⟨normalize_product_name product, pyStrip spid, pyStrip svid⟩] },
     .linked)

/-- `set_log_channel_id` (bot.py lines 130-137): settings upsert. -/
def set_log_channel (st : St) (gid : Nat) (ch : Option Nat) : St :=
  { st with
      settings :=
        if st.settings.any (fun s => s.guild_id == gid) then
          st.settings.map (fun s => if s.guild_id == gid then ⟨gid, ch⟩ else s)
        else st.settings ++ [⟨gid, ch⟩] }


/-! ### Store-failure model of the redemption transaction (bot.py lines 252-272)

Both writes of `redeem` run inside one deferred sqlite transaction on one
connection and become durable only at `db.commit()`.  If any statement or the
commit raises, the `async with` block closes the connection and sqlite rolls
the open transaction back, discarding the buffered writes.  `redeem_txn`
makes the buffering explicit: the UPDATE and the INSERT are queued as
`TxWrite`s and applied only by `commitTxn`; a failure at any of the four
store interactions yields the rolled-back state. -/

/-- A write buffered inside the open transaction. -/
inductive TxWrite
  | updKeys (h : PyStr)
  | insRedemption (h p : PyStr) (uid gid : Nat) (now : PyStr)
deriving DecidableEq, Repr

/-- Apply one buffered write to the durable state. -/
def applyWrite (st : St) : TxWrite → St
  | .updKeys h => { st with keys := mark_redeemed st.keys h }
  | .insRedemption h p u g n => { st with redemptions := st.redemptions ++ [⟨h, p, u, g, n⟩] }

/-- Commit: apply all buffered writes in order. -/
def commitTxn (st : St) (ws : List TxWrite) : St := ws.foldl applyWrite st

/-- The two writes `redeem` buffers for an unused row. -/
def redeem_writes (h p : PyStr) (uid gid : Nat) (now : PyStr) : List TxWrite :=
  [.updKeys h, .insRedemption h p uid gid now]

/-- Where a store-level transient failure strikes the redemption. -/
inductive FailPoint
  | atSelect
  | atUpdate
  | atInsert
  | atCommit
  | noFail
deriving DecidableEq, Repr

/-- One `/redeem` call under the failure model: `none` as outcome means the
caller saw a store error; any failure before the commit returns leaves the
durable state exactly as it was, because the open transaction rolls back. -/
def redeem_txn (fp : FailPoint) (st : St) (key : PyStr) (uid gid : Nat)
    (now : PyStr) : St × Option RedeemOutcome :=
  if fp = .atSelect then (st, none)
  else
    let h := sha256_hex (canon key)
    match redeem_read st h with
    | none => (st, some .invalidKey)
    | some (_, true) => (st, some .alreadyUsed)
    | some (p, false) =>
        if fp = .atUpdate then (st, none)
        else if fp = .atInsert then (st, none)
        else if fp = .atCommit then (st, none)
        else (commitTxn st (redeem_writes h p uid gid now), some (.redeemed p))

/-! ### Sequential executions of the administrative and end-user commands -/

/-- One invocation of a state-changing command, with all its inputs. -/
inductive Op
  | productAdd (name : PyStr) (role : Option Nat) (now : PyStr)
  | productRemove (name : PyStr)
  | saLink (product spid svid : PyStr)
  | genKeys (product : PyStr) (amount : Int) (raws : Nat → PyStr) (now : PyStr)
  | saPushkeys (product : PyStr) (amount : Int) (raws : Nat → PyStr) (now : PyStr)
  | redeemKey (key : PyStr) (uid gid : Nat) (now : PyStr)
  | setLog (gid : Nat) (ch : Option Nat)

/-- State transition of one command. -/
def applyOp (st : St) : Op → St
  | .productAdd name role now => product_add st name role now
  | .productRemove name => product_remove st name
  | .saLink product spid svid => (sellauth_link st product spid svid).1
  | .genKeys product amount raws now => (genkeys st product amount raws now).1
  | .saPushkeys product amount raws now => (sellauth_pushkeys st product amount raws now).1
  | .redeemKey key uid gid now => (redeem st key uid gid now).1
  | .setLog gid ch => set_log_channel st gid ch

/-- The state after a sequential run of commands from the fresh database. -/
def runOps (ops : List Op) : St := ops.foldl applyOp empty_db

/-- A product with the given (already normalized) name exists. -/
def product_exists (st : St) (pname : PyStr) : Prop :=
  ∃ p ∈ st.products, p.name = pname

instance (st : St) (pname : PyStr) : Decidable (product_exists st pname) :=
  List.decidableBEx _ st.products

/-- Every `sellauth_map` row references an existing product. -/
def map_products_exist (st : St) : Prop :=
  ∀ r ∈ st.sellauth_map, product_exists st r.product_name

instance (st : St) : Decidable (map_products_exist st) :=
  List.decidableBAll _ st.sellauth_map

/-- The digests about to be drawn are pairwise distinct and absent from the
table; under this hypothesis the UNIQUE constraint never fires during a
generation batch.  It holds with overwhelming probability for the
`secrets.token_urlsafe(32)` draws the program makes. -/
def stream_fresh (st : St) (raws : Nat → PyStr) (n : Nat) : Prop :=
  ((List.range n).map (fun j => sha256_hex (pyUpper (raws j)))).Nodup ∧
  ∀ j, j < n → hash_in st.keys (sha256_hex (pyUpper (raws j))) = false

instance (st : St) (raws : Nat → PyStr) (n : Nat) : Decidable (stream_fresh st raws n) := by
  unfold stream_fresh
  infer_instance

/-! ### Concrete instances used in the closed theorems below -/

/-- Code points of the product name vip. -/
def pvip : PyStr := [118, 105, 112]

/-- A timestamp placeholder. -/
def tsW : PyStr := [116, 48]

/-- Code points of the plaintext key VIPKEY. -/
def raceKey : PyStr := [86, 73, 80, 75, 69, 89]

/-- The digest `redeem` computes for `raceKey`. -/
def raceH : PyStr := sha256_hex (canon raceKey)

/-- One product, one unused key for it. -/
def raceSt : St := ⟨[⟨pvip, some 1, tsW⟩], [⟨raceH, pvip, false, tsW⟩], [], [], []⟩

/-- Interleaved schedule, caller A: its SELECT and its write transaction both
run against `raceSt`, before B writes. -/
def raceStepA : St × RedeemOutcome :=
  redeem_after_read raceSt (redeem_read raceSt raceH) raceH 11 77 tsW

/-- Interleaved schedule, caller B: its SELECT also ran against `raceSt`
(before A committed), and its continuation then runs against A's committed
state. -/
def raceStepB : St × RedeemOutcome :=
  redeem_after_read raceStepA.1 (redeem_read raceSt raceH) raceH 22 77 tsW

/-- Raw token stream whose first draw collides with the stored key of
`c6St`. -/
def c6Raws : Nat → PyStr := fun i => [97 + i % 26, 98]

/-- State with product vip and one key whose digest equals the digest of the
first draw of `c6Raws`. -/
def c6St : St :=
  ⟨[⟨pvip, some 1, tsW⟩], [⟨(generate_key (c6Raws 0)).2, pvip, false, tsW⟩], [], [], []⟩

/-- SellAuth product and variant ids used in the sequential run. -/
def saPid : PyStr := [49, 48]

/-- SellAuth variant id. -/
def saVid : PyStr := [50, 48]

/-- Sequential run: create product vip, then link it to SellAuth. -/
def c2Ops : List Op := [.productAdd pvip (some 1) tsW, .saLink pvip saPid saVid]

/-- The state reached by `c2Ops`. -/
def c2St : St := runOps c2Ops

/-- Token stream for the interleaved pushkeys insert phase. -/
def c2Raws : Nat → PyStr := fun i => [99 + i % 26]

/-- The state after `/product_remove vip` commits between the two database
sessions of `/sellauth_pushkeys`. -/
def c2AfterRemove : St := product_remove c2St pvip

/-- The second session of the interleaved `/sellauth_pushkeys` run, inserting
into the state where the product row is already gone. -/
def c2Insert : St × GenResult := pushkeys_insert c2AfterRemove pvip 1 c2Raws tsW

/-- Product table with vip registered, used by the generation witnesses. -/
def genSt : St := product_add empty_db pvip (some 5) tsW

/-- Raw token stream key00, key01, ...; pairwise distinct for the first
hundred draws. -/
def genRaws : Nat → PyStr := fun i => [107, 101, 121, 48 + i / 10 % 10, 48 + i % 10]

/-- State holding one key unrelated to the witness redemption input. -/
def c5St : St := ⟨[⟨pvip, some 1, tsW⟩], [⟨sha256_hex [88], pvip, false, tsW⟩], [], [], []⟩

/-! ### Canonicalization lemmas -/

theorem upperCp_idem (n : Nat) : upperCp (upperCp n) = upperCp n := by
  unfold upperCp
  split
  · rename_i h
    have h2 : ¬ (97 ≤ n - 32 ∧ n - 32 ≤ 122) := by omega
    rw [if_neg h2]
  · rfl

theorem isPyWS_upperCp (n : Nat) : isPyWS (upperCp n) = isPyWS n := by
  unfold upperCp
  split
  · rename_i h
    have h1 : isPyWS (n - 32) = false := by simp [isPyWS]; omega
    have h2 : isPyWS n = false := by simp [isPyWS]; omega
    rw [h1, h2]
  · rfl

theorem pyUpper_idem (s : PyStr) : pyUpper (pyUpper s) = pyUpper s := by
  simp only [pyUpper, List.map_map]
  apply List.map_congr_left
  intro a _
  exact upperCp_idem a

theorem dropWhile_head_false {α : Type} (p : α → Bool) (l : List α)
    (h : ∀ a, l.head? = some a → p a = false) : l.dropWhile p = l := by
  cases l with
  | nil => rfl
  | cons c t =>
      have hc := h c rfl
      simp [List.dropWhile_cons, hc]

theorem dropWhile_idem {α : Type} (p : α → Bool) (l : List α) :
    (l.dropWhile p).dropWhile p = l.dropWhile p := by
  apply dropWhile_head_false
  intro a ha
  have hh := List.head?_dropWhile_not p l
  rw [ha] at hh
  exact hh

theorem pyStrip_pyUpper (s : PyStr) : pyStrip (pyUpper s) = pyUpper (pyStrip s) := by
  have hps : (fun n => isPyWS (upperCp n)) = isPyWS := funext isPyWS_upperCp
  simp only [pyStrip, pyUpper, List.dropWhile_map, Function.comp_def, hps, List.map_reverse]
  rw [← List.map_reverse, List.dropWhile_map, Function.comp_def, hps]

theorem dropWhile_rdrop {α : Type} (p : α → Bool) (u : List α) (hu : u.dropWhile p = u) :
    (u.reverse.dropWhile p).reverse.dropWhile p = (u.reverse.dropWhile p).reverse := by
  cases u with
  | nil => simp
  | cons c t =>
      have hc : p c = false := by
        cases hpc : p c
        · rfl
        · exfalso
          rw [List.dropWhile_cons_of_pos hpc] at hu
          have h1 : (t.dropWhile p).length ≤ t.length :=
            List.Sublist.length_le (List.dropWhile_sublist p)
          have h2 := congrArg List.length hu
          simp at h2
          omega
      rw [List.reverse_cons, List.dropWhile_append]
      by_cases hv : (t.reverse.dropWhile p).isEmpty
      · rw [if_pos hv]
        simp [List.dropWhile_cons, hc]
      · rw [if_neg hv, List.reverse_append]
        simp [List.dropWhile_cons, hc]

theorem pyStrip_dropWhile (s : PyStr) : (pyStrip s).dropWhile isPyWS = pyStrip s := by
  simp only [pyStrip]
  exact dropWhile_rdrop isPyWS (s.dropWhile isPyWS) (dropWhile_idem isPyWS s)

theorem pyStrip_idem (s : PyStr) : pyStrip (pyStrip s) = pyStrip s := by
  have h1 := pyStrip_dropWhile s
  show (((pyStrip s).dropWhile isPyWS).reverse.dropWhile isPyWS).reverse = pyStrip s
  rw [h1]
  show ((((s.dropWhile isPyWS).reverse.dropWhile isPyWS).reverse).reverse.dropWhile
    isPyWS).reverse = pyStrip s
  rw [List.reverse_reverse, dropWhile_idem]
  rfl

theorem canon_idem (s : PyStr) : canon (canon s) = canon s := by
  simp only [canon]
  rw [pyStrip_pyUpper, pyStrip_idem, pyUpper_idem]

theorem canon_pyUpper_eq (raw : PyStr) (h : pyStrip raw = raw) :
    canon (pyUpper raw) = pyUpper raw := by
  simp only [canon]
  rw [pyStrip_pyUpper, h, pyUpper_idem]

/-! ### Key-table lemmas -/

theorem hash_in_false_iff (tbl : List KeyRec) (h : PyStr) :
    hash_in tbl h = false ↔ ∀ r ∈ tbl, r.key_hash ≠ h := by
  simp [hash_in]

theorem nodup_append_singleton {α : Type} (l : List α) (x : α) (hl : l.Nodup)
    (hx : x ∉ l) : (l ++ [x]).Nodup := by
  rw [List.nodup_middle]
  exact List.Nodup.cons (by simpa using hx) (by simpa using hl)

/-- Shape of a successful insert loop: it appends exactly the records of the
uppercased raw tokens, in order, and returns those plaintexts. -/
theorem genLoop_some_eq (pname now : PyStr) (raws : Nat → PyStr) :
    ∀ (n i : Nat) (tbl tbl2 : List KeyRec) (ks : List PyStr),
      genLoop pname now raws i n tbl = some (tbl2, ks) →
      ks = (List.range n).map (fun j => pyUpper (raws (i + j))) ∧
      tbl2 = tbl ++ ks.map (fun k => ⟨sha256_hex k, pname, false, now⟩) := by
  intro n
  induction n with
  | zero =>
      intro i tbl tbl2 ks hsome
      simp only [genLoop] at hsome
      obtain ⟨rfl, rfl⟩ : tbl = tbl2 ∧ [] = ks := by
        constructor <;> [exact congrArg Prod.fst (Option.some.inj hsome);
          exact congrArg Prod.snd (Option.some.inj hsome)]
      simp
  | succ n ih =>
      intro i tbl tbl2 ks hsome
      simp only [genLoop] at hsome
      split at hsome
      · exact absurd hsome (by simp)
      · rename_i hnin
        cases hrec : genLoop pname now raws (i + 1) n
            (tbl ++ [⟨(generate_key (raws i)).2, pname, false, now⟩]) with
        | none => rw [hrec] at hsome; exact absurd hsome (by simp)
        | some pr =>
            obtain ⟨tbl3, ks3⟩ := pr
            rw [hrec] at hsome
            obtain ⟨rfl, rfl⟩ : tbl3 = tbl2 ∧ (generate_key (raws i)).1 :: ks3 = ks := by
              constructor <;> [exact congrArg Prod.fst (Option.some.inj hsome);
                exact congrArg Prod.snd (Option.some.inj hsome)]
            obtain ⟨hks3, htbl3⟩ := ih (i + 1) _ _ _ hrec
            constructor
            · rw [List.range_succ_eq_map, List.map_cons, List.map_map]
              rw [hks3]
              congr 1
              apply List.map_congr_left
              intro j _
              show pyUpper (raws (i + 1 + j)) = pyUpper (raws (i + (j + 1)))
              have e1 : i + 1 + j = i + (j + 1) := by omega
              rw [e1]
            · rw [htbl3, List.map_cons, List.append_assoc, List.singleton_append]
              rfl
  
/-- The insert loop never fails when the digests to be drawn are pairwise
distinct and absent from the table. -/
theorem genLoop_fresh_some (pname now : PyStr) (raws : Nat → PyStr) :
    ∀ (n i : Nat) (tbl : List KeyRec),
      ((List.range n).map (fun j => sha256_hex (pyUpper (raws (i + j))))).Nodup →
      (∀ j, j < n → hash_in tbl (sha256_hex (pyUpper (raws (i + j)))) = false) →
      ∃ tbl2 ks, genLoop pname now raws i n tbl = some (tbl2, ks) := by
  intro n
  induction n with
  | zero =>
      intro i tbl _ _
      exact ⟨tbl, [], rfl⟩
  | succ n ih =>
      intro i tbl hnd hfr
      have h0 : hash_in tbl (sha256_hex (pyUpper (raws i))) = false := by
        have := hfr 0 (Nat.succ_pos n)
        rwa [Nat.add_zero] at this
      rw [List.range_succ_eq_map, List.map_cons, List.map_map, List.nodup_cons] at hnd
      obtain ⟨hhead, htail⟩ := hnd
      have htail2 : ((List.range n).map
          (fun j => sha256_hex (pyUpper (raws (i + 1 + j))))).Nodup := by
        have he : ((fun j => sha256_hex (pyUpper (raws (i + j)))) ∘ Nat.succ) =
            (fun j => sha256_hex (pyUpper (raws (i + 1 + j)))) := by
          funext j
          show sha256_hex (pyUpper (raws (i + (j + 1)))) = sha256_hex (pyUpper (raws (i + 1 + j)))
          have e1 : i + (j + 1) = i + 1 + j := by omega
          rw [e1]
        rwa [he] at htail
      have hfr2 : ∀ j, j < n →
          hash_in (tbl ++ [⟨(generate_key (raws i)).2, pname, false, now⟩])
            (sha256_hex (pyUpper (raws (i + 1 + j)))) = false := by
        intro j hj
        rw [hash_in_false_iff]
        intro r hr
        rcases List.mem_append.mp hr with hrl | hrr
        · have hfj := hfr (j + 1) (by omega)
          rw [hash_in_false_iff] at hfj
          have hne := hfj r hrl
          have e1 : i + (j + 1) = i + 1 + j := by omega
          rw [e1] at hne
          exact hne
        · have hreq : r = ⟨(generate_key (raws i)).2, pname, false, now⟩ := by simpa using hrr
          subst hreq
          show (generate_key (raws i)).2 ≠ _
          intro hcon
          apply hhead
          rw [List.mem_map]
          refine ⟨j, List.mem_range.mpr hj, ?_⟩
          show sha256_hex (pyUpper (raws (i + (j + 1)))) = sha256_hex (pyUpper (raws (i + 0)))
          have e1 : i + (j + 1) = i + 1 + j := by omega
          have e2 : i + 0 = i := by omega
          rw [e1, e2, ← hcon]
          rfl
      obtain ⟨tbl2, ks, hsome⟩ := ih (i + 1)
        (tbl ++ [⟨(generate_key (raws i)).2, pname, false, now⟩]) htail2 hfr2
      refine ⟨tbl2, (generate_key (raws i)).1 :: ks, ?_⟩
      have h0x : ¬ hash_in tbl (generate_key (raws i)).2 = true := by
        have h0y : hash_in tbl (generate_key (raws i)).2 = false := h0
        simp [h0y]
      simp only [genLoop, hsome, if_neg h0x]

/-- A successful insert loop keeps the UNIQUE invariant of `key_hash`. -/
theorem genLoop_nodup (pname now : PyStr) (raws : Nat → PyStr) :
    ∀ (n i : Nat) (tbl tbl2 : List KeyRec) (ks : List PyStr),
      genLoop pname now raws i n tbl = some (tbl2, ks) →
      (tbl.map KeyRec.key_hash).Nodup →
      (tbl2.map KeyRec.key_hash).Nodup := by
  intro n
  induction n with
  | zero =>
      intro i tbl tbl2 ks hsome hnd
      simp only [genLoop] at hsome
      have : tbl = tbl2 := congrArg Prod.fst (Option.some.inj hsome)
      rwa [← this]
  | succ n ih =>
      intro i tbl tbl2 ks hsome hnd
      simp only [genLoop] at hsome
      split at hsome
      · exact absurd hsome (by simp)
      · rename_i hnin
        cases hrec : genLoop pname now raws (i + 1) n
            (tbl ++ [⟨(generate_key (raws i)).2, pname, false, now⟩]) with
        | none => rw [hrec] at hsome; exact absurd hsome (by simp)
        | some pr =>
            obtain ⟨tbl3, ks3⟩ := pr
            rw [hrec] at hsome
            have heq : tbl3 = tbl2 := congrArg Prod.fst (Option.some.inj hsome)
            subst heq
            apply ih (i + 1) _ _ _ hrec
            rw [List.map_append]
            apply nodup_append_singleton _ _ hnd
            intro hmem
            rw [Bool.not_eq_true] at hnin
            rw [hash_in_false_iff] at hnin
            simp only [List.map] at hmem
            obtain ⟨r, hr, hrh⟩ := List.mem_map.mp hmem
            exact hnin r hr hrh

/-! ### Redemption lemmas -/

/-- With the UNIQUE invariant, the SELECT finds exactly the known record. -/
theorem find?_key_unique :
    ∀ (tbl : List KeyRec) (h : PyStr) (r : KeyRec),
      (tbl.map KeyRec.key_hash).Nodup → r ∈ tbl → r.key_hash = h →
      tbl.find? (fun x => x.key_hash == h) = some r := by
  intro tbl
  induction tbl with
  | nil => intro h r _ hr; exact absurd hr (List.not_mem_nil r)
  | cons a t ih =>
      intro h r hnd hr hh
      rw [List.map_cons, List.nodup_cons] at hnd
      obtain ⟨hna, hndt⟩ := hnd
      by_cases hba : a.key_hash = h
      · have hra : r = a := by
          rcases List.mem_cons.mp hr with hc | hc
          · exact hc
          · exfalso
            apply hna
            have hak : a.key_hash = r.key_hash := by rw [hba, hh]
            rw [hak]
            exact List.mem_map_of_mem KeyRec.key_hash hc
        subst hra
        exact List.find?_cons_of_pos _ (by simp [hba])
      · have hrt : r ∈ t := by
          rcases List.mem_cons.mp hr with hc | hc
          · exact absurd (hc ▸ hh) hba
          · exact hc
        rw [List.find?_cons_of_neg _ (by simp [hba])]
        exact ih h r hndt hrt hh

/-- The UPDATE preserves hashes and maps the matching row to its used copy. -/
theorem find?_mark_redeemed :
    ∀ (l : List KeyRec) (h : PyStr),
      (mark_redeemed l h).find? (fun x => x.key_hash == h) =
        (l.find? (fun x => x.key_hash == h)).map (fun r => { r with redeemed := true }) := by
  intro l
  induction l with
  | nil => intro h; rfl
  | cons a t ih =>
      intro h
      simp only [mark_redeemed, List.map_cons]
      by_cases hba : a.key_hash = h
      · rw [if_pos (by simp [hba])]
        rw [List.find?_cons_of_pos _ (by simp [hba])]
        rw [List.find?_cons_of_pos _ (by simp [hba])]
        rfl
      · rw [if_neg (by simp [hba])]
        rw [List.find?_cons_of_neg _ (by simp [hba])]
        rw [List.find?_cons_of_neg _ (by simp [hba])]
        exact ih h

/-- After the UPDATE, every row carrying the redeemed hash is marked used. -/
theorem mark_redeemed_flag (l : List KeyRec) (h : PyStr) (r : KeyRec)
    (hr : r ∈ mark_redeemed l h) (hh : r.key_hash = h) : r.redeemed = true := by
  simp only [mark_redeemed] at hr
  obtain ⟨x, _, hfx⟩ := List.mem_map.mp hr
  by_cases hbx : x.key_hash = h
  · rw [if_pos (by simp [hbx])] at hfx
    rw [← hfx]
  · rw [if_neg (by simp [hbx])] at hfx
    subst hfx
    exact absurd hh hbx

/-! ### Claim theorems -/

/-- Claim C10: `/product_remove` deletes exactly the product row and its
external-delivery mapping row for the normalized name and leaves every key
record and every redemption record (and the settings) unchanged. -/
theorem product_remove_frame (st : St) (name : PyStr) :
    (product_remove st name).keys = st.keys ∧
    (product_remove st name).redemptions = st.redemptions ∧
    (product_remove st name).settings = st.settings ∧
    (∀ p : ProductRec, p ∈ (product_remove st name).products ↔
        p ∈ st.products ∧ p.name ≠ normalize_product_name name) ∧
    (∀ r : SaRow, r ∈ (product_remove st name).sellauth_map ↔
        r ∈ st.sellauth_map ∧ r.product_name ≠ normalize_product_name name) := by
  refine ⟨rfl, rfl, rfl, ?_, ?_⟩
  · intro p
    simp [product_remove, List.mem_filter]
  · intro r
    simp [product_remove, List.mem_filter]

/-- Claim C9, counterexample: for the input ab (code points 97, 98), whose
canonical length 2 is at most 10, the mask returns the canonical form AB
(65, 66) rather than the string unchanged. -/
theorem mask_key_not_unchanged : mask_key [97, 98] ≠ [97, 98] := by decide

/-- Claim C9, amended: the mask operates on the canonical form of its input:
it returns the canonical form in full when its length is at most 10 (so an
already canonical short key is returned unchanged), and otherwise the first
four characters, a literal three-dot ellipsis, and the last four characters
of the canonical form. -/
theorem mask_key_amended (key : PyStr) :
    ((canon key).length ≤ 10 → mask_key key = canon key) ∧
    (10 < (canon key).length →
      mask_key key =
        (canon key).take 4 ++ [46, 46, 46] ++ (canon key).drop ((canon key).length - 4)) ∧
    (canon key = key → key.length ≤ 10 → mask_key key = key) := by
  have hshort : (canon key).length ≤ 10 → mask_key key = canon key := by
    intro hle
    show (if (canon key).length ≤ 10 then canon key else _) = canon key
    rw [if_pos hle]
  refine ⟨hshort, ?_, ?_⟩
  · intro hgt
    show (if (canon key).length ≤ 10 then canon key else
        (canon key).take 4 ++ [46, 46, 46] ++ (canon key).drop ((canon key).length - 4)) = _
    rw [if_neg (by omega)]
  · intro hck hlen
    have h1 : (canon key).length ≤ 10 := by rw [hck]; exact hlen
    rw [hshort h1, hck]

/-- Claim C9 witness: a 43-character canonical key masks to its first four
characters, the ellipsis, and its last four characters; the short canonical
key AB masks to itself. -/
theorem mask_key_amended_witness :
    mask_key (List.replicate 43 65) =
      (canon (List.replicate 43 65)).take 4 ++ [46, 46, 46] ++
        (canon (List.replicate 43 65)).drop ((canon (List.replicate 43 65)).length - 4) ∧
    mask_key [65, 66] = [65, 66] := by
  constructor
  · exact (mask_key_amended (List.replicate 43 65)).2.1 (by decide)
  · exact (mask_key_amended [65, 66]).2.2 (by decide) (by decide)

/-- Committing the two buffered redemption writes is exactly the committed
write transaction of `redeem`. -/
theorem commitTxn_redeem_writes (st : St) (h p : PyStr) (uid gid : Nat) (now : PyStr) :
    commitTxn st (redeem_writes h p uid gid now) = redeem_write st h p uid gid now := rfl

/-- Claim C3: whatever store interaction of the redemption a transient
failure interrupts, the durable state is either untouched or carries both the
used-flag flip and the ledger insert; no intermediate state survives. -/
theorem redeem_txn_atomic (fp : FailPoint) (st : St) (key : PyStr) (uid gid : Nat)
    (now : PyStr) :
    (redeem_txn fp st key uid gid now).1 = st ∨
    ∃ p, (redeem_txn fp st key uid gid now).1.keys =
          mark_redeemed st.keys (sha256_hex (canon key)) ∧
        (redeem_txn fp st key uid gid now).1.redemptions =
          st.redemptions ++ [⟨sha256_hex (canon key), p, uid, gid, now⟩] := by
  by_cases h1 : fp = .atSelect
  · left; simp [redeem_txn, h1]
  · cases hrow : redeem_read st (sha256_hex (canon key)) with
    | none => left; simp [redeem_txn, h1, hrow]
    | some pr =>
        obtain ⟨p, used⟩ := pr
        cases used with
        | true => left; simp [redeem_txn, h1, hrow]
        | false =>
            by_cases h2 : fp = .atUpdate
            · left; simp [redeem_txn, h1, h2, hrow]
            · by_cases h3 : fp = .atInsert
              · left; simp [redeem_txn, h1, h2, h3, hrow]
              · by_cases h4 : fp = .atCommit
                · left; simp [redeem_txn, h1, h2, h3, h4, hrow]
                · right
                  refine ⟨p, ?_, ?_⟩ <;>
                    simp [redeem_txn, h1, h2, h3, h4, hrow, commitTxn, redeem_writes,
                      applyWrite, redeem_write]

/-- Claim C5: a plaintext whose canonical digest matches no stored key record
makes `redeem` answer invalid-key and leave the whole state unchanged. -/
theorem unknown_key_invalid_no_change (st : St) (key : PyStr) (uid gid : Nat) (now : PyStr)
    (habs : ∀ r ∈ st.keys, r.key_hash ≠ sha256_hex (canon key)) :
    redeem st key uid gid now = (st, .invalidKey) := by
  have hfind : st.keys.find? (fun x => x.key_hash == sha256_hex (canon key)) = none := by
    rw [List.find?_eq_none]
    intro x hx
    simp [habs x hx]
  simp [redeem, redeem_read, redeem_after_read, hfind]

/-- Claim C5 witness: redeeming the never-generated plaintext KEY against a
store holding one unrelated key changes nothing and reports invalid-key. -/
theorem unknown_key_invalid_no_change_witness :
    redeem c5St [75, 69, 89] 1 2 tsW = (c5St, .invalidKey) :=
  unknown_key_invalid_no_change c5St [75, 69, 89] 1 2 tsW (by decide)

/-- Claim C8: canonicalization (strip then uppercase) is idempotent, the
digest is deterministic on canonical forms, and the plaintext returned by
`generate_key` (whose raw token carries no surrounding whitespace) hashes at
redemption to exactly the digest stored at generation. -/
theorem canon_idempotent_hash_deterministic (x y raw : PyStr) :
    canon (canon x) = canon x ∧
    (canon x = canon y → sha256_hex (canon x) = sha256_hex (canon y)) ∧
    (pyStrip raw = raw → sha256_hex (canon (generate_key raw).1) = (generate_key raw).2) := by
  refine ⟨canon_idem x, fun h => by rw [h], fun h => ?_⟩
  show sha256_hex (canon (pyUpper raw)) = sha256_hex (pyUpper raw)
  rw [canon_pyUpper_eq raw h]

/-- Claim C8 witness: concrete instances of idempotence, determinism on the
two spellings of the same canonical form, and the generation-redemption
digest agreement. -/
theorem canon_idempotent_hash_deterministic_witness :
    canon (canon [32, 97]) = canon [32, 97] ∧
    sha256_hex (canon [32, 97]) = sha256_hex (canon [65, 32]) ∧
    sha256_hex (canon (generate_key [98]).1) = (generate_key [98]).2 := by
  obtain ⟨h1, h2, h3⟩ := canon_idempotent_hash_deterministic [32, 97] [65, 32] [98]
  exact ⟨h1, h2 (by decide), h3 (by decide)⟩

/-- Claim C1: the SELECT and the write transaction of `redeem` are separate
store interactions at separate `await` points, so two concurrent redemptions
of the same key can both run their SELECT before either commits.  Under that
schedule both callers observe the redeemed reply and two redemption records
are inserted for the one key record, against the exactly-once requirement;
`raceStepA` is moreover literally the uninterleaved `redeem`, tying the
phases to the real operation. -/
theorem redeem_race_double_redemption :
    redeem raceSt raceKey 11 77 tsW = raceStepA ∧
    raceStepA.2 = .redeemed pvip ∧
    raceStepB.2 = .redeemed pvip ∧
    raceStepB.1.redemptions.length = 2 := by
  refine ⟨rfl, ?_, ?_, ?_⟩ <;> decide

/-- Claim C6: `/genkeys` has no regenerate-and-retry path.  When the first
drawn digest collides with a stored hash, the UNIQUE constraint aborts the
whole batch: the command reports the conflict and no key of the batch is
persisted (the open transaction rolls back), instead of regenerating. -/
theorem genkeys_collision_aborts_batch :
    genkeys c6St pvip 2 c6Raws tsW = (c6St, .conflict) := by decide

/-! ### Frame lemmas for the sequential invariant -/

theorem genkeys_shape (st : St) (product : PyStr) (amount : Int) (raws : Nat → PyStr)
    (now : PyStr) :
    ∃ tbl, (genkeys st product amount raws now).1 = { st with keys := tbl } := by
  unfold genkeys
  split
  · exact ⟨st.keys, rfl⟩
  split
  · exact ⟨st.keys, rfl⟩
  split
  · exact ⟨st.keys, rfl⟩
  · rename_i tbl2 ks _
    exact ⟨tbl2, rfl⟩

theorem pushkeys_shape (st : St) (product : PyStr) (amount : Int) (raws : Nat → PyStr)
    (now : PyStr) :
    ∃ tbl, (sellauth_pushkeys st product amount raws now).1 = { st with keys := tbl } := by
  unfold sellauth_pushkeys pushkeys_insert
  split
  · exact ⟨st.keys, rfl⟩
  split
  · exact ⟨st.keys, rfl⟩
  split
  · exact ⟨st.keys, rfl⟩
  · rename_i tbl2 ks _
    exact ⟨tbl2, rfl⟩

theorem redeem_shape (st : St) (key : PyStr) (uid gid : Nat) (now : PyStr) :
    ∃ tbl rds, (redeem st key uid gid now).1 = { st with keys := tbl, redemptions := rds } := by
  unfold redeem redeem_after_read
  split
  · exact ⟨st.keys, st.redemptions, rfl⟩
  · exact ⟨st.keys, st.redemptions, rfl⟩
  · exact ⟨_, _, rfl⟩

theorem get_product_none_iff (st : St) (pn : PyStr) :
    get_product st pn = none ↔ ¬ product_exists st pn := by
  unfold get_product product_exists
  rw [List.find?_eq_none]
  constructor
  · rintro h ⟨p, hp, hn⟩
    exact h p hp (by simp [hn])
  · intro h p hp hb
    exact h ⟨p, hp, by simpa using hb⟩

theorem sa_lookup_some_mem (st : St) (pn : PyStr) (pr : PyStr × PyStr)
    (h : sa_lookup st pn = some pr) : ∃ r ∈ st.sellauth_map, r.product_name = pn := by
  unfold sa_lookup at h
  cases hf : st.sellauth_map.find? (fun r => r.product_name == pn) with
  | none => rw [hf] at h; exact absurd h (by simp)
  | some r =>
      exact ⟨r, List.mem_of_find?_eq_some hf, by simpa using List.find?_some hf⟩

theorem product_exists_mono_add (st : St) (name : PyStr) (role : Option Nat) (now : PyStr)
    (pn : PyStr) (h : product_exists st pn) :
    product_exists (product_add st name role now) pn := by
  obtain ⟨p, hp, hname⟩ := h
  by_cases hc : st.products.any (fun q => q.name == normalize_product_name name) = true
  · refine ⟨if p.name == normalize_product_name name
        then ⟨p.name, role, p.created_at⟩ else p, ?_, ?_⟩
    · show _ ∈ (product_add st name role now).products
      unfold product_add
      rw [if_pos hc]
      exact List.mem_map_of_mem _ hp
    · split <;> simpa using hname
  · refine ⟨p, ?_, hname⟩
    show p ∈ (product_add st name role now).products
    unfold product_add
    rw [if_neg hc]
    exact List.mem_append_left _ hp

theorem map_products_exist_remove (st : St) (name : PyStr) (h : map_products_exist st) :
    map_products_exist (product_remove st name) := by
  intro r hr
  have hr2 : r ∈ st.sellauth_map ∧
      ¬ r.product_name = normalize_product_name name := by
    simpa [product_remove, List.mem_filter] using hr
  obtain ⟨hrm, hrne⟩ := hr2
  obtain ⟨p, hp, hpn⟩ := h r hrm
  refine ⟨p, ?_, hpn⟩
  show p ∈ (product_remove st name).products
  unfold product_remove
  rw [List.mem_filter]
  refine ⟨hp, ?_⟩
  simp only [Bool.not_eq_eq_eq_not, Bool.not_true, beq_eq_false_iff_ne]
  rw [hpn]
  exact hrne

theorem map_products_exist_link (st : St) (product spid svid : PyStr)
    (h : map_products_exist st) :
    map_products_exist (sellauth_link st product spid svid).1 := by
  unfold sellauth_link
  split
  · exact h
  · rename_i hnone
    have hex : product_exists st (normalize_product_name product) := by
      cases hfind : get_product st (normalize_product_name product) with
      | none => exact absurd (by rw [hfind]; rfl) hnone
      | some p =>
          exact ⟨p, List.mem_of_find?_eq_some hfind, by simpa using List.find?_some hfind⟩
    intro r hr
    by_cases hc : st.sellauth_map.any
        (fun q => q.product_name == normalize_product_name product) = true
    · rw [if_pos hc] at hr
      obtain ⟨q, hq, hfq⟩ := List.mem_map.mp hr
      by_cases hqn : q.product_name = normalize_product_name product
      · rw [if_pos (by simp [hqn])] at hfq
        rw [← hfq]
        exact hex
      · rw [if_neg (by simp [hqn])] at hfq
        rw [← hfq]
        exact h q hq
    · rw [if_neg hc] at hr
      rcases List.mem_append.mp hr with hold | hnew
      · exact h r hold
      · have : r = ⟨normalize_product_name product, pyStrip spid, pyStrip svid⟩ := by
          simpa using hnew
        rw [this]
        exact hex

theorem applyOp_map_products_exist (st : St) (op : Op) (h : map_products_exist st) :
    map_products_exist (applyOp st op) := by
  cases op with
  | productAdd name role now =>
      intro r hr
      exact product_exists_mono_add st name role now r.product_name (h r hr)
  | productRemove name => exact map_products_exist_remove st name h
  | saLink product spid svid => exact map_products_exist_link st product spid svid h
  | genKeys product amount raws now =>
      obtain ⟨tbl, hshape⟩ := genkeys_shape st product amount raws now
      show map_products_exist (genkeys st product amount raws now).1
      rw [hshape]
      intro r hr
      exact h r hr
  | saPushkeys product amount raws now =>
      obtain ⟨tbl, hshape⟩ := pushkeys_shape st product amount raws now
      show map_products_exist (sellauth_pushkeys st product amount raws now).1
      rw [hshape]
      intro r hr
      exact h r hr
  | redeemKey key uid gid now =>
      obtain ⟨tbl, rds, hshape⟩ := redeem_shape st key uid gid now
      show map_products_exist (redeem st key uid gid now).1
      rw [hshape]
      intro r hr
      exact h r hr
  | setLog gid ch =>
      intro r hr
      exact h r hr

theorem runOps_map_products_exist (ops : List Op) : map_products_exist (runOps ops) := by
  have hgen : ∀ (l : List Op) (st : St), map_products_exist st →
      map_products_exist (l.foldl applyOp st) := by
    intro l
    induction l with
    | nil => intro st h; exact h
    | cons op rest ih =>
        intro st h
        exact ih _ (applyOp_map_products_exist st op h)
  exact hgen ops empty_db (fun r hr => absurd hr (List.not_mem_nil r))

/-- Claim C2, counterexample: `/sellauth_pushkeys` never queries the
`products` table.  Its mapping lookup and its key insert are two separate
database sessions, so a `/product_remove` can commit between them: starting
from the sequentially reachable state `c2St` (product vip created and
linked), the lookup succeeds, the remove deletes the product row, and the
insert phase still persists a key record for the now nonexistent product
instead of failing. -/
theorem pushkeys_inserts_after_product_removed :
    (sa_lookup c2St (normalize_product_name pvip)).isSome = true ∧
    c2AfterRemove.products = [] ∧
    c2Insert.1.keys.length = 1 ∧
    c2Insert.2 = .ok [pyUpper (c2Raws 0)] := by
  refine ⟨?_, ?_, ?_, ?_⟩ <;> decide

/-- Claim C2, amended: `/genkeys` and `/sellauth_link` check the `products`
table first and fail without touching the key store when the product is
absent; `/sellauth_pushkeys` checks only the external-delivery mapping and
fails without inserting when no mapping exists.  In every sequentially
reachable state each mapping row references an existing product, so an
uninterleaved push that persists keys implies the product existed at its
start (the interleaved counterexample above is what the amendment gives
up). -/
theorem keygen_product_checks_amended (st : St) (product spid svid : PyStr) (amount : Int)
    (raws : Nat → PyStr) (now : PyStr) (ops : List Op) :
    (¬ product_exists st (normalize_product_name product) →
      (genkeys st product amount raws now).1 = st ∧
      ∀ ks, (genkeys st product amount raws now).2 ≠ .ok ks) ∧
    (¬ product_exists st (normalize_product_name product) →
      sellauth_link st product spid svid = (st, .productNotFound)) ∧
    (sa_lookup st (normalize_product_name product) = none →
      (sellauth_pushkeys st product amount raws now).1 = st ∧
      ∀ ks, (sellauth_pushkeys st product amount raws now).2 ≠ .ok ks) ∧
    map_products_exist (runOps ops) ∧
    (st = runOps ops →
      ∀ st2 ks, sellauth_pushkeys st product amount raws now = (st2, .ok ks) →
        product_exists st (normalize_product_name product)) := by
  have hnone : ¬ product_exists st (normalize_product_name product) →
      (get_product st (normalize_product_name product)).isNone = true := by
    intro habs
    rw [Option.isNone_iff_eq_none, get_product_none_iff]
    exact habs
  refine ⟨?_, ?_, ?_, runOps_map_products_exist ops, ?_⟩
  · intro habs
    unfold genkeys
    split
    · exact ⟨rfl, by intro ks; simp⟩
    · rw [if_pos (hnone habs)]
      exact ⟨rfl, by intro ks; simp⟩
  · intro habs
    unfold sellauth_link
    rw [if_pos (hnone habs)]
  · intro hmap
    unfold sellauth_pushkeys
    split
    · exact ⟨rfl, by intro ks; simp⟩
    · rw [hmap]
      exact ⟨rfl, by intro ks; simp⟩
  · intro hst st2 ks hok
    unfold sellauth_pushkeys at hok
    split at hok
    · exact absurd (congrArg Prod.snd hok) (by simp)
    · cases hlk : sa_lookup st (normalize_product_name product) with
      | none => rw [hlk] at hok; exact absurd (congrArg Prod.snd hok) (by simp)
      | some pr =>
          obtain ⟨r, hr, hrn⟩ := sa_lookup_some_mem st _ pr hlk
          obtain ⟨p, hp, hpn⟩ := (hst ▸ runOps_map_products_exist ops) r hr
          exact ⟨p, hp, by rw [hpn, hrn]⟩

/-- Claim C2 witness: on the empty database, generation, linking and pushing
all fail without writing; and the sequential run `c2Ops` satisfies the
mapping-references-existing-product invariant. -/
theorem keygen_product_checks_amended_witness :
    (genkeys empty_db pvip 5 genRaws tsW).1 = empty_db ∧
    (∀ ks, (genkeys empty_db pvip 5 genRaws tsW).2 ≠ .ok ks) ∧
    sellauth_link empty_db pvip saPid saVid = (empty_db, .productNotFound) ∧
    (sellauth_pushkeys empty_db pvip 5 genRaws tsW).1 = empty_db ∧
    map_products_exist (runOps c2Ops) := by
  obtain ⟨h1, h2, h3, h4, _⟩ :=
    keygen_product_checks_amended empty_db pvip saPid saVid 5 genRaws tsW c2Ops
  obtain ⟨h1a, h1b⟩ := h1 (by decide)
  exact ⟨h1a, h1b, h2 (by decide), (h3 (by decide)).1, h4⟩

/-- Claim C4: for every key a successful generation batch returned, the first
sequential redemption of its plaintext answers redeemed with that key's
product, and a subsequent redemption of the same plaintext leaves the state
unchanged (so every later attempt behaves identically) and answers
already-used, with the key's used flag remaining set.  The `hnd` hypothesis
is the `key_hash UNIQUE` constraint of the pre-state table; `hcanon` holds
for every generated plaintext, whose raw token is whitespace-free base64url
and already uppercased. -/
theorem generated_key_redeems_once (st : St) (product : PyStr) (amount : Int)
    (raws : Nat → PyStr) (now now1 now2 : PyStr) (uid1 gid1 uid2 gid2 : Nat)
    (st1 : St) (ks : List PyStr) (k : PyStr)
    (hgen : genkeys st product amount raws now = (st1, .ok ks))
    (hk : k ∈ ks)
    (hnd : (st.keys.map KeyRec.key_hash).Nodup)
    (hcanon : canon k = k) :
    ∃ st2, redeem st1 k uid1 gid1 now1 = (st2, .redeemed (normalize_product_name product)) ∧
      redeem st2 k uid2 gid2 now2 = (st2, .alreadyUsed) ∧
      ∀ r ∈ st2.keys, r.key_hash = sha256_hex k → r.redeemed = true := by
  unfold genkeys at hgen
  split at hgen
  · exact absurd (congrArg Prod.snd hgen) (by simp)
  split at hgen
  · exact absurd (congrArg Prod.snd hgen) (by simp)
  rename_i hrange hprod
  cases hloop : genLoop (normalize_product_name product) now raws 0 amount.toNat st.keys with
  | none => rw [hloop] at hgen; exact absurd (congrArg Prod.snd hgen) (by simp)
  | some pr =>
      obtain ⟨tbl2, ks2⟩ := pr
      rw [hloop] at hgen
      have hst1 : st1 = { st with keys := tbl2 } := (congrArg Prod.fst hgen).symm
      have hks2 : ks2 = ks := by
        have := congrArg Prod.snd hgen
        simpa using this
      subst hks2
      obtain ⟨hks, htbl⟩ := genLoop_some_eq (normalize_product_name product) now raws
        amount.toNat 0 _ _ _ hloop
      have hnd2 : (tbl2.map KeyRec.key_hash).Nodup :=
        genLoop_nodup (normalize_product_name product) now raws amount.toNat 0 _ _ _ hloop hnd
      have hrec : (⟨sha256_hex k, normalize_product_name product, false, now⟩ : KeyRec) ∈ tbl2 := by
        rw [htbl]
        apply List.mem_append_right
        exact List.mem_map_of_mem _ hk
      have hfind : tbl2.find? (fun x => x.key_hash == sha256_hex k) =
          some ⟨sha256_hex k, normalize_product_name product, false, now⟩ :=
        find?_key_unique tbl2 (sha256_hex k)
          ⟨sha256_hex k, normalize_product_name product, false, now⟩ hnd2 hrec rfl
      have hread1 : redeem_read st1 (sha256_hex k) =
          some (normalize_product_name product, false) := by
        unfold redeem_read
        rw [hst1]
        show (tbl2.find? (fun x => x.key_hash == sha256_hex k)).map _ = _
        rw [hfind]
        rfl
      refine ⟨redeem_write st1 (sha256_hex k) (normalize_product_name product) uid1 gid1 now1,
        ?_, ?_, ?_⟩
      · unfold redeem
        rw [hcanon, hread1]
        rfl
      · have hread2 : redeem_read
            (redeem_write st1 (sha256_hex k) (normalize_product_name product) uid1 gid1 now1)
            (sha256_hex k) = some (normalize_product_name product, true) := by
          unfold redeem_read redeem_write
          show ((mark_redeemed st1.keys (sha256_hex k)).find?
            (fun x => x.key_hash == sha256_hex k)).map _ = _
          rw [find?_mark_redeemed, hst1]
          show ((tbl2.find? (fun x => x.key_hash == sha256_hex k)).map _).map _ = _
          rw [hfind]
          rfl
        unfold redeem
        rw [hcanon, hread2]
        rfl
      · intro r hr hrh
        have hr2 : r ∈ mark_redeemed st1.keys (sha256_hex k) := hr
        exact mark_redeemed_flag st1.keys (sha256_hex k) r hr2 hrh

/-- Claim C4 witness: generate one key for vip from the raw token key00; its
plaintext KEY00 redeems once with product vip, and the second attempt is
already-used with the flag still set. -/
theorem generated_key_redeems_once_witness :
    ∃ st2, redeem (genkeys genSt pvip 1 genRaws tsW).1 (pyUpper (genRaws 0)) 1 2 tsW =
        (st2, .redeemed (normalize_product_name pvip)) ∧
      redeem st2 (pyUpper (genRaws 0)) 3 4 tsW = (st2, .alreadyUsed) ∧
      ∀ r ∈ st2.keys, r.key_hash = sha256_hex (pyUpper (genRaws 0)) → r.redeemed = true := by
  exact generated_key_redeems_once genSt pvip 1 genRaws tsW tsW tsW 1 2 3 4
    (genkeys genSt pvip 1 genRaws tsW).1 [pyUpper (genRaws 0)] (pyUpper (genRaws 0))
    (by decide) (by decide) (by decide) (by decide)


/-- Claim C7: for an existing product, a generation request outside [1, 50]
fails with the amount error and персists nothing, while a request inside the
range whose drawn digests are fresh (which holds with overwhelming
probability for the random tokens) succeeds and returns that many pairwise
distinct plaintext keys with pairwise distinct digests — distinctness is
forced by the `key_hash UNIQUE` constraint, which would have aborted the
batch otherwise. -/
theorem genkeys_range_and_distinct (st : St) (product : PyStr) (amount : Int)
    (raws : Nat → PyStr) (now : PyStr)
    (hprod : product_exists st (normalize_product_name product)) :
    ((amount < 1 ∨ 50 < amount) →
      genkeys st product amount raws now = (st, .amountOutOfRange)) ∧
    (1 ≤ amount → amount ≤ 50 → stream_fresh st raws amount.toNat →
      ∃ st1 ks, genkeys st product amount raws now = (st1, .ok ks) ∧
        ks.length = amount.toNat ∧ ks.Nodup ∧ (ks.map sha256_hex).Nodup) := by
  constructor
  · intro hr
    unfold genkeys
    rw [if_pos hr]
  · intro h1 h2 hfresh
    have hrange : ¬ (amount < 1 ∨ 50 < amount) := by omega
    have hnone : ¬ (get_product st (normalize_product_name product)).isNone = true := by
      intro hc
      rw [Option.isNone_iff_eq_none, get_product_none_iff] at hc
      exact hc hprod
    have hfr0 : ∀ j, j < amount.toNat →
        hash_in st.keys (sha256_hex (pyUpper (raws (0 + j)))) = false := by
      intro j hj
      rw [Nat.zero_add]
      exact hfresh.2 j hj
    have he : (fun j : Nat => sha256_hex (pyUpper (raws (0 + j)))) =
        (fun j => sha256_hex (pyUpper (raws j))) := by
      funext j
      rw [Nat.zero_add]
    have hnd0 : ((List.range amount.toNat).map
        (fun j => sha256_hex (pyUpper (raws (0 + j))))).Nodup := by
      rw [he]
      exact hfresh.1
    obtain ⟨tbl2, ks, hloop⟩ := genLoop_fresh_some (normalize_product_name product) now raws
      amount.toNat 0 st.keys hnd0 hfr0
    obtain ⟨hks, htbl⟩ := genLoop_some_eq (normalize_product_name product) now raws
      amount.toNat 0 _ _ _ hloop
    have hdig : (ks.map sha256_hex).Nodup := by
      rw [hks, List.map_map]
      have he2 : (sha256_hex ∘ fun j => pyUpper (raws (0 + j))) =
          (fun j => sha256_hex (pyUpper (raws j))) := by
        funext j
        show sha256_hex (pyUpper (raws (0 + j))) = _
        rw [Nat.zero_add]
      rw [he2]
      exact hfresh.1
    refine ⟨{ st with keys := tbl2 }, ks, ?_, ?_, List.Nodup.of_map sha256_hex hdig, hdig⟩
    · unfold genkeys
      rw [if_neg hrange, if_neg hnone, hloop]
    · rw [hks, List.length_map, List.length_range]

set_option maxRecDepth 8192 in
set_option maxHeartbeats 4000000 in
/-- Claim C7 witness: with product vip registered, the amounts 0 and 51 fail
with the amount error leaving the store untouched, and amount 50 over the
concrete fresh stream key00..key49 yields 50 pairwise distinct plaintexts
with 50 pairwise distinct digests. -/
theorem genkeys_range_and_distinct_witness :
    genkeys genSt pvip 0 genRaws tsW = (genSt, .amountOutOfRange) ∧
    genkeys genSt pvip 51 genRaws tsW = (genSt, .amountOutOfRange) ∧
    ∃ st1 ks, genkeys genSt pvip 50 genRaws tsW = (st1, .ok ks) ∧
      ks.length = (50 : Int).toNat ∧ ks.Nodup ∧ (ks.map sha256_hex).Nodup := by
  refine ⟨?_, ?_, ?_⟩
  · exact (genkeys_range_and_distinct genSt pvip 0 genRaws tsW (by decide)).1 (by decide)
  · exact (genkeys_range_and_distinct genSt pvip 51 genRaws tsW (by decide)).1 (by decide)
  · exact (genkeys_range_and_distinct genSt pvip 50 genRaws tsW (by decide)).2
      (by decide) (by decide) (by decide)
